import Mathlib

/-!
Verification of the tag-selection / filtering engine of
`astro-image-exif-loader` against its natural-language specification.

The development shallowly embeds the relevant source functions:

* `toSerializable` and `buildImageData` from `src/package/src/loader.ts`
  (the utils part of the concatenated file, lines 744-838);
* the exclusion-set construction `new Set([...FILESYSTEM_LEAKY_TAGS,
  ...excludeTags])` of `createExifLoader` (line 64 / 399);
* the mtime change-detection guard of `processImage` (lines 183-189 and
  531-540);
* the store / delete identifier computations of the two loader variants
  (lines 156-161, 177-181 and 493-499, 505-529);
* `imageImporter` from `src/package/src/importer.ts` (lines 1-66).

JavaScript runtime values are modelled by the inductive `JSValue`; JS
numbers are modelled by `ℚ` (exact rationals); JS objects are modelled
as insertion-ordered association lists, with property assignment
(`setField`) overwriting in place, as JS object assignment does.
-/

/-- A JavaScript runtime value, as far as `toSerializable`
(`loader.ts` lines 744-784) can observe one:

* `null` / `undefined`;
* primitive strings, numbers (modelled exactly, by `ℚ`) and booleans;
* a date-like value — a native `Date` or an object with a `toDate()`
  method; `toISO` is the ISO-8601 rendering, `none` when the conversion
  throws, and `strRep` is the value's generic `String(value)` rendering
  used by the surrounding `catch`;
* an array;
* `objV`: an exotic object with a custom `valueOf` (its result recorded
  only when it is a number or a string, the one case the code uses)
  and/or numeric `num` / `den` fields, with `strRep` its `String(value)`
  rendering;
* `objMap`: a plain data object (string-keyed fields, insertion order;
  its `String(value)` rendering is always `"[object Object]"`, and its
  `valueOf` is `Object.prototype.valueOf`, which yields no primitive). -/
inductive JSValue where
  | null : JSValue
  | undefined : JSValue
  | str : String → JSValue
  | num : ℚ → JSValue
  | bool : Bool → JSValue
  | date : Option String → String → JSValue
  | arr : List JSValue → JSValue
  | objV : Option (ℚ ⊕ String) → Option (ℚ × ℚ) → String → JSValue
  | objMap : List (String × JSValue) → JSValue

/-- `value === null || value === undefined`. -/
def isNullish : JSValue → Bool
  | .null => true
  | .undefined => true
  | _ => false

/-- JS property read `obj[k]` on an insertion-ordered object:
`none` models `undefined` (key absent). -/
def jsGet {α : Type} : List (String × α) → String → Option α
  | [], _ => none
  | (k, v) :: tl, key => if key = k then some v else jsGet tl key

/-- JS property assignment `obj[k] = v`: an existing key keeps its
position and gets the new value, a new key is appended.  (A JS object's
keys are unique, so updating the first occurrence is the general case.) -/
def setField {α : Type} : List (String × α) → String → α → List (String × α)
  | [], k, v => [(k, v)]
  | (a, b) :: tl, k, v =>
    if a = k then (k, v) :: tl else (a, b) :: setField tl k v

/-- The numeric `num` / `den` field check of `toSerializable`
(`typeof value.num === "number" && typeof value.den === "number"`),
for a plain data object. -/
def ratNumField (l : List (String × JSValue)) (k : String) : Option ℚ :=
  match jsGet l k with
  | some (.num q) => some q
  | _ => none

mutual

/-- `toSerializable` (`loader.ts` lines 744-784), branch for branch:
null/undefined → null; primitives unchanged; date-like → ISO string,
falling back to `String(value)` when the conversion throws (the
`try`/`catch` is resolved by the `Option` match); arrays element-wise;
a `valueOf` yielding a number or string wins; then numeric `num`/`den`
fields divide; otherwise `String(value)`. -/
def toSerializable : JSValue → JSValue
  | .null => .null
  | .undefined => .null
  | .str s => .str s
  | .num q => .num q
  | .bool b => .bool b
  | .date conv strRep =>
    match conv with
    | some iso => .str iso
    | none => .str strRep
  | .arr xs => .arr (toSerializableList xs)
  | .objV vof nd strRep =>
    match vof with
    | some (Sum.inl q) => .num q
    | some (Sum.inr s) => .str s
    | none =>
      match nd with
      | some (n, d) => .num (n / d)
      | none => .str strRep
  | .objMap entries =>
    match ratNumField entries "num", ratNumField entries "den" with
    | some n, some d => .num (n / d)
    | _, _ => .str "[object Object]"

/-- `value.map(toSerializable)`. -/
def toSerializableList : List JSValue → List JSValue
  | [] => []
  | x :: xs => toSerializable x :: toSerializableList xs

end

mutual

/-- The serializable result type promised by the spec for
`toSerializable`: `string | number | boolean | null`, or an array of
serializable values. -/
def isSerialized : JSValue → Bool
  | .null => true
  | .str _ => true
  | .num _ => true
  | .bool _ => true
  | .arr xs => isSerializedList xs
  | _ => false

/-- Every element of the list is serializable. -/
def isSerializedList : List JSValue → Bool
  | [] => true
  | x :: xs => isSerialized x && isSerializedList xs

end

/-- The `rawExif` object built by `buildImageData` when `includeRawExif`
is set (`loader.ts` lines 828-835): every tag of the raw record whose
value is not null/undefined, serialized, with no exclusion filter. -/
def rawExifObj (tags : List (String × JSValue)) : List (String × JSValue) :=
  tags.foldl
    (fun acc kv =>
      if !isNullish kv.2 then setField acc kv.1 (toSerializable kv.2) else acc)
    []

/-- `buildImageData` (`loader.ts` lines 786-838). `tagsToExtract = none`
is the `null` extract-all sentinel; an explicit selection is a `Set`,
modelled by its insertion-ordered, duplicate-free element list; the
exclusion set likewise. The returned JS object is the association list
of its fields in insertion order. -/
def buildImageData (tags : List (String × JSValue)) (fileName : String)
    (mtime : String) (fileSize : ℚ) (tagsToExtract : Option (List String))
    (excludeTags : List String) (includeRawExif : Bool) :
    List (String × JSValue) :=
  let data := setField (setField [] "fileName" (.str fileName)) "mtime" (.str mtime)
  let data :=
    match tagsToExtract with
    | none =>
      let d := tags.foldl
        (fun d kv =>
          if !isNullish kv.2 && !excludeTags.contains kv.1 then
            setField d kv.1 (toSerializable kv.2)
          else d)
        data
      setField d "FileSize" (.num fileSize)
    | some sel =>
      if sel.length > 0 then
        let d := sel.foldl
          (fun d t =>
            if !excludeTags.contains t then
              match jsGet tags t with
              | some v => if !isNullish v then setField d t (toSerializable v) else d
              | none => d
            else d)
          data
        if sel.contains "FileSize" && !excludeTags.contains "FileSize" then
          setField d "FileSize" (.num fileSize)
        else d
      else data
  if includeRawExif then
    setField data "rawExif" (.objMap (rawExifObj tags))
  else data

/-- `FILESYSTEM_LEAKY_TAGS` (`loader.ts` lines 669-681). -/
def FILESYSTEM_LEAKY_TAGS : List String :=
  ["Directory", "FileName", "FileModifyDate", "FileAccessDate",
   "FileInodeChangeDate", "FilePermissions", "FileType",
   "FileTypeExtension", "MIMEType", "ExifToolVersion", "SourceFile"]

/-- `Set.add`: insertion-ordered, skips elements already present. -/
def setAdd (l : List String) (x : String) : List String :=
  if l.contains x then l else l ++ [x]

/-- `new Set(xs)` as its insertion-ordered element list. -/
def mkSet (xs : List String) : List String :=
  xs.foldl setAdd []

/-- `new Set([...FILESYSTEM_LEAKY_TAGS, ...excludeTags])`
(`loader.ts` line 64 / 399): the effective exclusion set. -/
def excludeTagsSet (excludeTags : List String) : List String :=
  mkSet (FILESYSTEM_LEAKY_TAGS ++ excludeTags)

/-- The change-detection guard of `processImage` (`loader.ts` lines
185-189 / 536-540): `existingEntry && existingEntry.data.mtime === mtime`.
`existingData` is the stored record's `data` object, `none` when the
store holds no record for the id. -/
def shouldSkip (existingData : Option (List (String × JSValue)))
    (mtime : String) : Bool :=
  match existingData with
  | none => false
  | some data =>
    match jsGet data "mtime" with
    | some (.str s) => s == mtime
    | _ => false


/-! ### Path helpers (POSIX), as used by the loader's id computations.
Implemented structurally over character lists so concrete identifiers
evaluate by kernel reduction.  `relativeUnder` models Node's
`path.relative(base, p)` on the domain the watcher's `matches` guard
guarantees: `p` equal to `base` or strictly under it. -/

/-- Split a character list on a separator character. -/
def splitOnChar (sep : Char) : List Char → List (List Char)
  | [] => [[]]
  | c :: rest =>
    match splitOnChar sep rest with
    | [] => [[]]
    | grp :: grps => if c = sep then [] :: grp :: grps else (c :: grp) :: grps

/-- `s` starts with `pre`. -/
def startsWithL : List Char → List Char → Bool
  | _, [] => true
  | [], _ :: _ => false
  | c :: s, d :: pre => c = d && startsWithL s pre

/-- Remove the first occurrence of `sub` (assumed nonempty) from `s`. -/
def removeFirstSub (sub : List Char) : List Char → List Char
  | [] => []
  | c :: rest =>
    if startsWithL (c :: rest) sub then (c :: rest).drop sub.length
    else c :: removeFirstSub sub rest

/-- Node `path.basename` for a normalized POSIX path with no trailing
slash: the part after the last `/`. -/
def basename (p : String) : String :=
  ⟨((splitOnChar '/' p.data).getLast?).getD p.data⟩

/-- Node `path.extname`: from the last `.` of the basename to the end;
empty when the basename has no `.` or consists of a leading `.` only. -/
def extname (p : String) : String :=
  let b := (basename p).data
  let parts := splitOnChar '.' b
  if parts.length ≤ 1 then ""
  else if parts.head? = some [] ∧ parts.length = 2 then ""
  else ⟨'.' :: ((parts.getLast?).getD [])⟩

/-- JS `str.replace(sub, "")` with a plain-string pattern: removes the
first occurrence of `sub`, if any (removing an empty pattern is the
identity). -/
def replaceFirst (s sub : String) : String :=
  if sub.data.isEmpty then s else ⟨removeFirstSub sub.data s.data⟩

/-- Node `path.relative(base, p)` for `p` under (or equal to) `base`. -/
def relativeUnder (base p : String) : String :=
  if p = base then ""
  else if startsWithL p.data (base.data ++ ['/']) then ⟨p.data.drop (base.data.length + 1)⟩
  else p

/-- Store id of the first loader variant's `processImage` (`loader.ts`
lines 177-181): `relative(resolve(rootPath, "src"), filePath)` with
backslashes normalized (a no-op on POSIX), extension retained. -/
def storeId_v1 (rootPath filePath : String) : String :=
  relativeUnder (rootPath ++ "/src") filePath

/-- Delete id of the first loader variant's unlink handler (`loader.ts`
lines 156-161): `basename(filePath)`. -/
def deleteId_v1 (filePath : String) : String :=
  basename filePath

/-- The second loader variant's id computation (`loader.ts` lines
495-496 and 518-529): `rel.replace(extname(rel), "")`, the relative path
with the first occurrence of its extension removed. -/
def stripExtId (rel : String) : String :=
  replaceFirst rel (extname rel)

/-- Store id of the second loader variant's `processImage` (`loader.ts`
lines 518-529): the path relative to the images base directory, with
the extension stripped. -/
def storeId_v2 (basePath filePath : String) : String :=
  stripExtId (relativeUnder basePath filePath)

/-- Delete id of the second loader variant's unlink handler (`loader.ts`
lines 493-499). -/
def deleteId_v2 (basePath filePath : String) : String :=
  stripExtId (relativeUnder basePath filePath)

/-! ### The image-import companion function
(`src/package/src/importer.ts`, lines 1-66). -/

/-- A collection entry handed to `imageImporter`.  `srcPath` is
`entry.data.srcPath`, split out with its TypeScript type
(`BaseAlwaysFields.srcPath?: string`, `types.ts`): `none` when the field
is absent; the loader stores `""` for images outside `/src`.  `data`
carries the rest of the record. -/
structure ImpEntry where
  id : String
  collection : String
  data : List (String × JSValue)
  srcPath : Option String

/-- `{...entry, defaultImport}`: the entry together with the resolved
default import of the image module (`none` models JS `null`). -/
structure ImportedEntry where
  id : String
  collection : String
  data : List (String × JSValue)
  srcPath : Option String
  defaultImport : Option JSValue

/-- `!e.data?.srcPath` (`importer.ts` line 13): the record lacks an
importable source path when the field is absent or falsy (`""`). -/
def lacksSrcPath (e : ImpEntry) : Bool :=
  match e.srcPath with
  | none => true
  | some s => s == ""

/-- One entry's result (`importer.ts` lines 23-64).  `files` is the
`import.meta.glob("/src/**/*")` map: for a present module path it holds
the resolved default export, `none` standing for an import that throws
or a module with no default export (both yield a `null` default import
after the logged warning). -/
def importOne (files : List (String × Option JSValue)) (e : ImpEntry) :
    ImportedEntry :=
  match e.srcPath with
  | none => ⟨e.id, e.collection, e.data, e.srcPath, none⟩
  | some relPath =>
    if relPath == "" then ⟨e.id, e.collection, e.data, e.srcPath, none⟩
    else
      let imagePath :=
        if startsWithL relPath.data ['/'] then "/" ++ ⟨relPath.data.drop 1⟩
        else "/src/" ++ relPath
      let di :=
        match jsGet files imagePath with
        | some (some v) => some v
        | _ => none
      ⟨e.id, e.collection, e.data, e.srcPath, di⟩

/-- The hard-failure message of `imageImporter` (`importer.ts` 15-17). -/
def importerFailureMsg : String :=
  "astro-image-exif-loader: The importer only works for images under /src."

/-- `imageImporter` (`importer.ts` lines 2-66), with its effects made
explicit: `Except.error` models the thrown hard failure, and the `Bool`
of the `ok` result records whether the partial-mismatch warning was
logged. -/
def imageImporter (files : List (String × Option JSValue))
    (entries : List ImpEntry) : Except String (Bool × List ImportedEntry) :=
  let missing := entries.filter lacksSrcPath
  if missing.length = entries.length then
    Except.error importerFailureMsg
  else
    Except.ok (decide (0 < missing.length), entries.map (importOne files))
/-! ### Association-list lemmas: JS object reads after assignment -/

theorem jsGet_setField_self {α : Type} (l : List (String × α)) (k : String) (v : α) :
    jsGet (setField l k v) k = some v := by
  induction l with
  | nil => simp [setField, jsGet]
  | cons hd tl ih =>
    obtain ⟨a, b⟩ := hd
    by_cases h : a = k
    · simp [setField, h, jsGet]
    · simp [setField, h, jsGet, Ne.symm h, ih]

theorem jsGet_setField_ne {α : Type} (l : List (String × α)) (k key : String) (v : α)
    (h : key ≠ k) : jsGet (setField l k v) key = jsGet l key := by
  induction l with
  | nil => simp [setField, jsGet, h]
  | cons hd tl ih =>
    obtain ⟨a, b⟩ := hd
    by_cases ha : a = k
    · subst ha
      simp [setField, jsGet, h]
    · by_cases hk : key = a
      · simp [setField, ha, jsGet, hk]
      · simp [setField, ha, jsGet, hk, ih]

/-- The extract-all copy loop never writes an excluded key. -/
theorem jsGet_extractAllFold_excluded (tags : List (String × JSValue))
    (excl : List String) (init : List (String × JSValue)) (key : String)
    (hk : excl.contains key = true) :
    jsGet (tags.foldl
      (fun d kv =>
        if !isNullish kv.2 && !excl.contains kv.1 then
          setField d kv.1 (toSerializable kv.2)
        else d) init) key = jsGet init key := by
  induction tags generalizing init with
  | nil => rfl
  | cons kv tl ih =>
    simp only [List.foldl_cons]
    by_cases hc : (!isNullish kv.2 && !excl.contains kv.1) = true
    · rw [if_pos hc]
      rw [ih]
      apply jsGet_setField_ne
      intro he
      rw [he] at hk
      simp at hk hc
      exact hc.2 hk
    · rw [if_neg hc, ih]

/-- The explicit-selection copy loop never writes an excluded key. -/
theorem jsGet_selFold_excluded (sel : List String) (tags : List (String × JSValue))
    (excl : List String) (init : List (String × JSValue)) (key : String)
    (hk : excl.contains key = true) :
    jsGet (sel.foldl
      (fun d t =>
        if !excl.contains t then
          match jsGet tags t with
          | some v => if !isNullish v then setField d t (toSerializable v) else d
          | none => d
        else d) init) key = jsGet init key := by
  induction sel generalizing init with
  | nil => rfl
  | cons t tl ih =>
    simp only [List.foldl_cons]
    by_cases hc : (!excl.contains t) = true
    · have hne : key ≠ t := by
        intro he
        rw [he] at hk
        simp at hc
        exact hc (by simpa using hk)
      rw [if_pos hc, ih]
      cases jsGet tags t with
      | none => rfl
      | some v =>
        by_cases hv : (!isNullish v) = true
        · simp only [hv, if_pos]
          exact jsGet_setField_ne _ _ _ _ hne
        · simp only [Bool.not_eq_true] at hv
          simp [hv]
    · rw [if_neg hc, ih]

/-- An excluded tag name other than the four base keys is absent from every
record `buildImageData` builds. -/
theorem jsGet_buildImageData_excluded (tags : List (String × JSValue))
    (fn mt : String) (fs : ℚ) (sel : Option (List String)) (excl : List String)
    (raw : Bool) (key : String) (hk : excl.contains key = true)
    (h1 : key ≠ "fileName") (h2 : key ≠ "mtime") (h3 : key ≠ "rawExif")
    (h4 : key ≠ "FileSize") :
    jsGet (buildImageData tags fn mt fs sel excl raw) key = none := by
  have hbase : jsGet (setField (setField [] "fileName" (JSValue.str fn)) "mtime"
      (JSValue.str mt)) key = none := by
    simp [setField, jsGet, h1, h2]
  unfold buildImageData
  cases sel with
  | none =>
    simp only
    cases raw with
    | true =>
      simp only [if_pos]
      rw [jsGet_setField_ne _ _ _ _ h3, jsGet_setField_ne _ _ _ _ h4,
        jsGet_extractAllFold_excluded _ _ _ _ hk, hbase]
    | false =>
      simp only [Bool.false_eq_true, if_false]
      rw [jsGet_setField_ne _ _ _ _ h4, jsGet_extractAllFold_excluded _ _ _ _ hk, hbase]
  | some s =>
    simp only
    by_cases hs : s.length > 0
    · rw [if_pos hs]
      by_cases hfs : (s.contains "FileSize" && !excl.contains "FileSize") = true
      · cases raw with
        | true =>
          simp only [if_pos, hfs]
          rw [jsGet_setField_ne _ _ _ _ h3, jsGet_setField_ne _ _ _ _ h4,
            jsGet_selFold_excluded _ _ _ _ _ hk, hbase]
        | false =>
          simp only [Bool.false_eq_true, if_false, hfs, if_pos]
          rw [jsGet_setField_ne _ _ _ _ h4, jsGet_selFold_excluded _ _ _ _ _ hk, hbase]
      · rw [Bool.not_eq_true] at hfs
        cases raw with
        | true =>
          simp only [if_pos, hfs, Bool.false_eq_true, if_false]
          rw [jsGet_setField_ne _ _ _ _ h3, jsGet_selFold_excluded _ _ _ _ _ hk, hbase]
        | false =>
          simp only [Bool.false_eq_true, if_false, hfs]
          rw [jsGet_selFold_excluded _ _ _ _ _ hk, hbase]
    · rw [if_neg hs]
      cases raw with
      | true =>
        simp only [if_pos]
        rw [jsGet_setField_ne _ _ _ _ h3, hbase]
      | false =>
        simp only [Bool.false_eq_true, if_false]
        exact hbase

/-! ### Set construction lemmas -/

theorem mem_setAdd (l : List String) (x t : String) :
    t ∈ setAdd l x ↔ t ∈ l ∨ t = x := by
  unfold setAdd
  by_cases h : l.contains x = true
  · simp only [h, if_true]
    constructor
    · exact Or.inl
    · rintro (ht | rfl)
      · exact ht
      · simpa using h
  · rw [Bool.not_eq_true] at h
    have hx : x ∉ l := by simpa using h
    simp [hx]

theorem mem_foldl_setAdd (xs : List String) (init : List String) (t : String) :
    t ∈ xs.foldl setAdd init ↔ t ∈ init ∨ t ∈ xs := by
  induction xs generalizing init with
  | nil => simp
  | cons x tl ih =>
    simp only [List.foldl_cons, ih, mem_setAdd, List.mem_cons]
    tauto

theorem mem_mkSet (xs : List String) (t : String) : t ∈ mkSet xs ↔ t ∈ xs := by
  simp [mkSet, mem_foldl_setAdd]

/-! ### Serializer totality helpers -/

mutual

theorem serializedAux (v : JSValue) : isSerialized (toSerializable v) = true :=
  match v with
  | .null => rfl
  | .undefined => rfl
  | .str _ => rfl
  | .num _ => rfl
  | .bool _ => rfl
  | .date conv strRep => by cases conv <;> rfl
  | .arr xs => by
    simpa [toSerializable, isSerialized] using serializedListAux xs
  | .objV vof nd strRep => by
    rcases vof with _ | q_or_s
    · rcases nd with _ | nd
      · rfl
      · rfl
    · rcases q_or_s with q | s <;> rfl
  | .objMap entries => by
    rcases h1 : ratNumField entries "num" with _ | n <;>
      rcases h2 : ratNumField entries "den" with _ | d <;>
      simp [toSerializable, isSerialized, h1, h2]

theorem serializedListAux (xs : List JSValue) :
    isSerializedList (toSerializableList xs) = true :=
  match xs with
  | [] => rfl
  | x :: tl => by
    simp [toSerializableList, isSerializedList, serializedAux x, serializedListAux tl]

end

/-! ### rawExif lemmas -/

theorem jsGet_rawFold_notmem (tl : List (String × JSValue))
    (init : List (String × JSValue)) (k : String)
    (h : ∀ kv ∈ tl, kv.1 ≠ k) :
    jsGet (tl.foldl
      (fun acc kv =>
        if !isNullish kv.2 then setField acc kv.1 (toSerializable kv.2) else acc)
      init) k = jsGet init k := by
  induction tl generalizing init with
  | nil => rfl
  | cons kv tl ih =>
    simp only [List.foldl_cons]
    rw [ih _ (fun p hp => h p (List.mem_cons_of_mem _ hp))]
    by_cases hn : (!isNullish kv.2) = true
    · rw [if_pos hn]
      exact jsGet_setField_ne _ _ _ _ (Ne.symm (h kv (List.mem_cons_self _ _)))
    · rw [if_neg hn]

theorem jsGet_rawFold (tags : List (String × JSValue))
    (init : List (String × JSValue)) (k : String) (v : JSValue)
    (hnd : (tags.map Prod.fst).Nodup) (hget : jsGet tags k = some v)
    (hv : isNullish v = false) :
    jsGet (tags.foldl
      (fun acc kv =>
        if !isNullish kv.2 then setField acc kv.1 (toSerializable kv.2) else acc)
      init) k = some (toSerializable v) := by
  induction tags generalizing init with
  | nil => simp [jsGet] at hget
  | cons kv tl ih =>
    obtain ⟨a, b⟩ := kv
    simp only [List.map_cons, List.nodup_cons] at hnd
    by_cases hk : k = a
    · subst hk
      rw [jsGet] at hget
      rw [if_pos rfl] at hget
      cases hget
      simp only [List.foldl_cons, hv, Bool.not_false, if_pos]
      rw [jsGet_rawFold_notmem tl _ k
        (fun p hp he => hnd.1 (he ▸ List.mem_map_of_mem Prod.fst hp))]
      exact jsGet_setField_self _ _ _
    · rw [jsGet] at hget
      rw [if_neg hk] at hget
      simp only [List.foldl_cons]
      exact ih _ hnd.2 hget

/-! ### Importer helper -/

theorem importOne_defaultImport_none (files : List (String × Option JSValue))
    (e : ImpEntry) (h : lacksSrcPath e = true) :
    (importOne files e).defaultImport = none := by
  cases hsp : e.srcPath with
  | none => simp [importOne, hsp]
  | some s =>
    have hs : (s == "") = true := by simpa [lacksSrcPath, hsp] using h
    simp [importOne, hsp, hs]

/-! ### The claims -/

/-- C2: in ALL mode (`tagsToExtract` null), for every raw tag record the
output record's `FileSize` field equals the byte size from the
filesystem stat result (the `fileSize` argument), never a `FileSize`
value of the raw record: the unconditional `data.FileSize = fileSize`
after the copy loop overwrites any copied parser value. -/
theorem fileSize_from_stat_extractAll (tags : List (String × JSValue))
    (fn mt : String) (fs : ℚ) (excl : List String) (raw : Bool) :
    jsGet (buildImageData tags fn mt fs none excl raw) "FileSize"
      = some (.num fs) := by
  simp only [buildImageData]
  cases raw with
  | true =>
    rw [if_pos rfl]
    rw [jsGet_setField_ne _ _ _ _ (by decide : ("FileSize" : String) ≠ "rawExif")]
    exact jsGet_setField_self _ _ _
  | false =>
    simp only [Bool.false_eq_true, if_false]
    exact jsGet_setField_self _ _ _

/-- C1 (amended): for every tag name `T` in the exclusion set, ALL-mode
projection never includes `T` as a curated field — except when `T` is
the file-size tag name `"FileSize"`, which ALL mode always sets from the
stat size even when excluded (see the counterexample).  The three base
keys `fileName`, `mtime`, `rawExif` are not tag fields. -/
theorem exclusion_dominance_extractAll (tags : List (String × JSValue))
    (fn mt : String) (fs : ℚ) (excl : List String) (raw : Bool) (T : String)
    (hT : excl.contains T = true) (hfs : T ≠ "FileSize")
    (h1 : T ≠ "fileName") (h2 : T ≠ "mtime") (h3 : T ≠ "rawExif") :
    jsGet (buildImageData tags fn mt fs none excl raw) T = none :=
  jsGet_buildImageData_excluded tags fn mt fs none excl raw T hT h1 h2 h3 hfs

/-- C1 witness: the amended theorem at a concrete input — a user-excluded
`GPSLatitude` tag present in the raw record is absent from the output. -/
theorem exclusion_dominance_extractAll_witness :
    jsGet (buildImageData [("GPSLatitude", .num 10)] "a.jpg" "M" 7 none
      (excludeTagsSet ["GPSLatitude"]) true) "GPSLatitude" = none :=
  exclusion_dominance_extractAll _ _ _ _ _ _ _ (by decide) (by decide)
    (by decide) (by decide) (by decide)

/-- C1 counterexample: with `excludeTags = ["FileSize"]` the effective
exclusion set contains `"FileSize"`, yet the ALL-mode output still
carries a `FileSize` field (set from the stat size), so exclusion does
not dominate for the file-size tag name as the claim states. -/
theorem exclusion_dominance_counterexample :
    (excludeTagsSet ["FileSize"]).contains "FileSize" = true ∧
    jsGet (buildImageData [] "a.jpg" "2024-01-01T00:00:00.000Z" 1234 none
      (excludeTagsSet ["FileSize"]) false) "FileSize" = some (.num 1234) :=
  ⟨by decide, rfl⟩

/-- C3: serializing a rational value (numerator `n`, denominator `d` —
the fields the code spells `num` / `den`) yields the number `n / d`,
whether the rational is an exotic object or a plain object with numeric
`num` / `den` fields.  The hypothesis `d ≠ 0` scopes the statement to
where exact rational division models JS division. -/
theorem rational_value_serialization (n d : ℚ) (s : String) (_hd : d ≠ 0) :
    toSerializable (.objV none (some (n, d)) s) = .num (n / d) ∧
    toSerializable (.objMap [("num", .num n), ("den", .num d)]) = .num (n / d) :=
  ⟨rfl, rfl⟩

/-- C3 witness: the rational with numerator 1 and denominator 2
serializes to the number 0.5. -/
theorem rational_value_serialization_witness :
    toSerializable (.objMap [("num", .num 1), ("den", .num 2)]) = .num 0.5 := by
  have h := (rational_value_serialization 1 2 "x" (by norm_num)).2
  have e : (1 : ℚ) / 2 = 0.5 := by norm_num
  rw [e] at h
  exact h

/-- C5: processing is skipped iff a stored record exists and its stored
`mtime` string is exactly string-equal to the current file's mtime
string; in particular no record (`none`) or any differing string (even
by one millisecond) is not skipped. -/
theorem shouldSkip_iff (ex : Option (List (String × JSValue))) (cur : String) :
    shouldSkip ex cur = true ↔
      ∃ data, ex = some data ∧ jsGet data "mtime" = some (.str cur) := by
  cases ex with
  | none => simp [shouldSkip]
  | some data =>
    cases h : jsGet data "mtime" with
    | none => simp [shouldSkip, h]
    | some v =>
      cases v with
      | str s =>
        simp only [shouldSkip, h]
        constructor
        · intro hb
          have hs : s = cur := by simpa using hb
          exact ⟨data, rfl, by rw [h, hs]⟩
        · rintro ⟨d, hd, hg⟩
          injection hd with hd
          subst hd
          rw [h] at hg
          injection hg with hg
          injection hg with hg
          simp [hg]
      | null => simp [shouldSkip, h]
      | undefined => simp [shouldSkip, h]
      | num q => simp [shouldSkip, h]
      | bool b => simp [shouldSkip, h]
      | date c r => simp [shouldSkip, h]
      | arr xs => simp [shouldSkip, h]
      | objV a b c => simp [shouldSkip, h]
      | objMap m => simp [shouldSkip, h]

/-- C6: with `includeRawExif = true` and an empty explicit selection,
the output record is exactly `fileName`, `mtime` and the nested
`rawExif` object; `rawExif` holds every non-null raw tag, serialized,
with the exclusion set not applied (the statement holds for every
exclusion set, which never occurs in `rawExifObj`). -/
theorem emptySelection_includeRaw (tags : List (String × JSValue))
    (fn mt : String) (fs : ℚ) (excl : List String) :
    buildImageData tags fn mt fs (some []) excl true
      = [("fileName", .str fn), ("mtime", .str mt),
         ("rawExif", .objMap (rawExifObj tags))] ∧
    ∀ k v, (tags.map Prod.fst).Nodup → jsGet tags k = some v →
      isNullish v = false →
      jsGet (rawExifObj tags) k = some (toSerializable v) := by
  constructor
  · rfl
  · intro k v hnd hget hv
    exact jsGet_rawFold tags [] k v hnd hget hv

/-- C7: whatever the user-supplied `excludeTags` list (including none),
every tag of the built-in filesystem-leak list is in the effective
exclusion set, and consequently appears as a curated field of no output
record, in any selection mode. -/
theorem builtin_leaky_tags_always_excluded (user : List String) (T : String)
    (hT : T ∈ FILESYSTEM_LEAKY_TAGS) :
    (excludeTagsSet user).contains T = true ∧
    ∀ tags fn mt fs sel raw,
      jsGet (buildImageData tags fn mt fs sel (excludeTagsSet user) raw) T = none := by
  have hmem : T ∈ excludeTagsSet user := by
    rw [excludeTagsSet, mem_mkSet]
    exact List.mem_append_left _ hT
  have hc : (excludeTagsSet user).contains T = true := by simpa using hmem
  refine ⟨hc, fun tags fn mt fs sel raw => ?_⟩
  have hne : T ≠ "fileName" ∧ T ≠ "mtime" ∧ T ≠ "rawExif" ∧ T ≠ "FileSize" := by
    simp only [FILESYSTEM_LEAKY_TAGS] at hT
    fin_cases hT <;> exact ⟨by decide, by decide, by decide, by decide⟩
  exact jsGet_buildImageData_excluded _ _ _ _ _ _ _ _ hc hne.1 hne.2.1 hne.2.2.1 hne.2.2.2

/-- C7 witness: the built-in tag `Directory` with no user exclusions. -/
theorem builtin_leaky_tags_always_excluded_witness :
    ((excludeTagsSet []).contains "Directory" = true) ∧
    ∀ tags fn mt fs sel raw,
      jsGet (buildImageData tags fn mt fs sel (excludeTagsSet []) raw) "Directory" = none :=
  builtin_leaky_tags_always_excluded [] "Directory" (by decide)

/-- C8: the value serializer is total — for every input value its result
is a serializable value (string, number, boolean, null, or an array of
such), and for an unrecognized object it falls back to the generic
string representation.  Exceptions are modelled explicitly: the only
fallible step, the date conversion, is the `Option` in `JSValue.date`,
and its failure is caught and mapped to the fallback string. -/
theorem serializer_total_and_fallback :
    (∀ v, isSerialized (toSerializable v) = true) ∧
    (∀ s, toSerializable (.objV none none s) = .str s) :=
  ⟨serializedAux, fun _ => rfl⟩

/-- C4: identifier mismatch of the retained-extension loader variant, at
a concrete watched file under the default images directory — the store
id is the src-relative path while the unlink handler deletes the bare
basename, so the stored record is not the one deleted; the
stripped-extension variant computes identical ids. -/
theorem unlink_store_identifier_mismatch :
    storeId_v1 "/proj" "/proj/src/content/images/sub/photo.jpg"
        = "content/images/sub/photo.jpg" ∧
    deleteId_v1 "/proj/src/content/images/sub/photo.jpg" = "photo.jpg" ∧
    deleteId_v1 "/proj/src/content/images/sub/photo.jpg"
        ≠ storeId_v1 "/proj" "/proj/src/content/images/sub/photo.jpg" ∧
    ∀ base fp, deleteId_v2 base fp = storeId_v2 base fp :=
  ⟨by decide, by decide, by decide, fun _ _ => rfl⟩

/-- C9: the image-import companion throws its hard failure exactly when
every requested record lacks an importable source path; otherwise it
returns one result per entry (warning exactly when some entry lacks the
path), with a null `defaultImport` for each non-importable entry. -/
theorem imageImporter_hard_failure_iff (files : List (String × Option JSValue))
    (entries : List ImpEntry) :
    (imageImporter files entries = Except.error importerFailureMsg ↔
      ∀ e ∈ entries, lacksSrcPath e = true) ∧
    ∀ warned res, imageImporter files entries = Except.ok (warned, res) →
      (warned = true ↔ ∃ e ∈ entries, lacksSrcPath e = true) ∧
      res = entries.map (importOne files) ∧
      ∀ e ∈ entries, lacksSrcPath e = true →
        (importOne files e).defaultImport = none := by
  have hfl : ((entries.filter lacksSrcPath).length = entries.length) ↔
      ∀ e ∈ entries, lacksSrcPath e = true := List.filter_length_eq_length
  simp only [imageImporter]
  by_cases hc : (entries.filter lacksSrcPath).length = entries.length
  · rw [if_pos hc]
    refine ⟨⟨fun _ => hfl.mp hc, fun _ => rfl⟩, ?_⟩
    intro warned res heq
    exact absurd heq (by simp)
  · rw [if_neg hc]
    constructor
    · constructor
      · intro heq
        exact absurd heq (by simp)
      · intro hall
        exact absurd (hfl.mpr hall) hc
    · intro warned res heq
      simp only [Except.ok.injEq, Prod.mk.injEq] at heq
      obtain ⟨hw, hr⟩ := heq
      subst hw
      subst hr
      refine ⟨?_, rfl, ?_⟩
      · rw [decide_eq_true_eq]
        rw [List.length_pos_iff_exists_mem]
        constructor
        · rintro ⟨e, he⟩
          rw [List.mem_filter] at he
          exact ⟨e, he.1, he.2⟩
        · rintro ⟨e, he, hp⟩
          exact ⟨e, List.mem_filter.mpr ⟨he, hp⟩⟩
      · intro e he hp
        exact importOne_defaultImport_none files e hp

/-- C10: calling the image importer with an empty entries array takes
the hard-failure path — the all-records-non-importable length check is
vacuously satisfied by zero entries — instead of returning an empty
array. -/
theorem imageImporter_empty_entries_throws (files : List (String × Option JSValue)) :
    imageImporter files [] = Except.error importerFailureMsg := rfl
